import Mathlib

set_option maxRecDepth 8000

/-!
Shallow embedding of the docat documentation-viewer navigation core
(`web/src/pages/Docs.tsx`) together with models of the external primitives
it relies on: JavaScript URL component encoding, the ambient router's
address parsing, and the version-repository helpers described by the spec.

Strings are modelled as lists of characters (`Str`).
-/

abbrev Str := List Char

def strL (s : String) : Str := s.data

/-! ## UTF-8 encoding / decoding (external primitive underlying
    percent encoding / decoding of URL components) -/

/-- UTF-8 encoding of a Unicode code point, as a list of byte values. -/
def utf8EncodeCp (n : Nat) : List Nat :=
  if n < 0x80 then [n]
  else if n < 0x800 then [0xC0 + n / 64, 0x80 + n % 64]
  else if n < 0x10000 then [0xE0 + n / 4096, 0x80 + n / 64 % 64, 0x80 + n % 64]
  else [0xF0 + n / 262144, 0x80 + n / 4096 % 64, 0x80 + n / 64 % 64, 0x80 + n % 64]

/-- The UTF-8 bytes of a string. -/
def utf8Bytes (s : Str) : List Nat :=
  (s.map (fun c => utf8EncodeCp c.toNat)).flatten

/-- Is `b` a UTF-8 continuation byte? -/
def isCont (b : Nat) : Bool := 0x80 ≤ b && b < 0xC0

/-- Decode a byte list into a list of Unicode code points: the first
component of the state, when present, holds the partial value and the number
of continuation bytes still expected. -/
def utf8DecodeLoop : Option (Nat × Nat) → List Nat → Option (List Nat)
  | none, [] => some []
  | some _, [] => none
  | none, b :: bs =>
    if b < 0x80 then (utf8DecodeLoop none bs).map (b :: ·)
    else if b < 0xC0 then none
    else if b < 0xE0 then utf8DecodeLoop (some (b - 0xC0, 1)) bs
    else if b < 0xF0 then utf8DecodeLoop (some (b - 0xE0, 2)) bs
    else utf8DecodeLoop (some (b - 0xF0, 3)) bs
  | some (v, k), b :: bs =>
    if isCont b then
      if k = 1 then (utf8DecodeLoop none bs).map ((v * 64 + (b - 0x80)) :: ·)
      else utf8DecodeLoop (some (v * 64 + (b - 0x80), k - 1)) bs
    else none

/-- Decode a byte list into a list of Unicode code points. -/
def utf8DecodeCps (bs : List Nat) : Option (List Nat) :=
  utf8DecodeLoop none bs

/-- Decode UTF-8 bytes to a string. -/
def utf8DecodeStr (bs : List Nat) : Option Str :=
  (utf8DecodeCps bs).map (List.map Char.ofNat)

theorem utf8DecodeLoop_encode (n : Nat) (h : n < 0x110000) (bs : List Nat) :
    utf8DecodeLoop none (utf8EncodeCp n ++ bs) = (utf8DecodeLoop none bs).map (n :: ·) := by
  unfold utf8EncodeCp
  split_ifs with h1 h2 h3
  · simp only [List.cons_append, List.nil_append]
    rw [utf8DecodeLoop.eq_def]
    simp only []
    rw [if_pos h1]
  · simp only [List.cons_append, List.nil_append]
    rw [utf8DecodeLoop.eq_def]
    simp only []
    rw [if_neg (by omega), if_neg (by omega), if_pos (by omega)]
    rw [utf8DecodeLoop.eq_def]
    simp only []
    rw [if_pos (by simp only [isCont, Bool.and_eq_true, decide_eq_true_eq]; omega), if_pos trivial]
    have hv : (0xC0 + n / 64 - 0xC0) * 64 + (0x80 + n % 64 - 0x80) = n := by omega
    rw [hv]
  · simp only [List.cons_append, List.nil_append]
    rw [utf8DecodeLoop.eq_def]
    simp only []
    rw [if_neg (by omega), if_neg (by omega), if_neg (by omega), if_pos (by omega)]
    rw [utf8DecodeLoop.eq_def]
    simp only []
    rw [if_pos (by simp only [isCont, Bool.and_eq_true, decide_eq_true_eq]; omega),
      if_neg (by omega)]
    rw [utf8DecodeLoop.eq_def]
    simp only []
    rw [if_pos (by simp only [isCont, Bool.and_eq_true, decide_eq_true_eq]; omega), if_pos trivial]
    have hv : ((0xE0 + n / 4096 - 0xE0) * 64 + (0x80 + n / 64 % 64 - 0x80)) * 64 +
        (0x80 + n % 64 - 0x80) = n := by omega
    rw [hv]
  · simp only [List.cons_append, List.nil_append]
    rw [utf8DecodeLoop.eq_def]
    simp only []
    rw [if_neg (by omega), if_neg (by omega), if_neg (by omega), if_neg (by omega)]
    rw [utf8DecodeLoop.eq_def]
    simp only []
    rw [if_pos (by simp only [isCont, Bool.and_eq_true, decide_eq_true_eq]; omega),
      if_neg (by omega)]
    rw [utf8DecodeLoop.eq_def]
    simp only []
    rw [if_pos (by simp only [isCont, Bool.and_eq_true, decide_eq_true_eq]; omega),
      if_neg (by omega)]
    rw [utf8DecodeLoop.eq_def]
    simp only []
    rw [if_pos (by simp only [isCont, Bool.and_eq_true, decide_eq_true_eq]; omega), if_pos trivial]
    have hv : (((0xF0 + n / 262144 - 0xF0) * 64 + (0x80 + n / 4096 % 64 - 0x80)) * 64 +
        (0x80 + n / 64 % 64 - 0x80)) * 64 + (0x80 + n % 64 - 0x80) = n := by omega
    rw [hv]

theorem utf8DecodeCps_encode (n : Nat) (h : n < 0x110000) (bs : List Nat) :
    utf8DecodeCps (utf8EncodeCp n ++ bs) = (utf8DecodeCps bs).map (n :: ·) :=
  utf8DecodeLoop_encode n h bs

theorem char_toNat_lt (c : Char) : c.toNat < 0x110000 := by
  have h := c.valid
  unfold UInt32.isValidChar Nat.isValidChar at h
  simp only [Char.toNat]
  rcases h with h | ⟨h1, h2⟩ <;> omega

theorem utf8DecodeCps_bytes (s : Str) :
    utf8DecodeCps (utf8Bytes s) = some (s.map Char.toNat) := by
  induction s with
  | nil => rfl
  | cons c cs ih =>
    simp only [utf8Bytes, List.map_cons, List.flatten_cons] at *
    rw [utf8DecodeCps_encode c.toNat (char_toNat_lt c), ih]
    rfl

theorem utf8DecodeStr_bytes (s : Str) : utf8DecodeStr (utf8Bytes s) = some s := by
  simp only [utf8DecodeStr, utf8DecodeCps_bytes]
  simp [List.map_map, Function.comp_def, Char.ofNat_toNat]

/-! ## Percent encoding (external primitives: JavaScript encodeURIComponent
    and decodeURIComponent, modelled from the spec §4.3) -/

/-- Characters JavaScript `encodeURIComponent` leaves unescaped. -/
def isUnreservedChar (c : Char) : Bool :=
  (decide ('A' ≤ c) && decide (c ≤ 'Z')) || (decide ('a' ≤ c) && decide (c ≤ 'z')) ||
  (decide ('0' ≤ c) && decide (c ≤ '9')) ||
  c == '-' || c == '_' || c == '.' || c == '!' || c == '~' || c == '*' ||
  c == Char.ofNat 39 || c == '(' || c == ')'

def hexDigitChar (n : Nat) : Char := (strL "0123456789ABCDEF").getD n 'F'

/-- Percent-escape of one byte. -/
def pctByte (b : Nat) : Str := ['%', hexDigitChar (b / 16), hexDigitChar (b % 16)]

/-- Modelled from the spec: JavaScript `encodeURIComponent`, the percent
encoding `getUrl` applies to the `page` segment (§4.3) — unreserved
characters are kept, every other character is replaced by the percent
escapes of its UTF-8 bytes. -/
def encodeURIComponent (s : Str) : Str :=
  (s.map (fun c =>
    if isUnreservedChar c then [c]
    else ((utf8EncodeCp c.toNat).map pctByte).flatten)).flatten

def hexVal (c : Char) : Option Nat :=
  if '0' ≤ c ∧ c ≤ '9' then some (c.toNat - 48)
  else if 'A' ≤ c ∧ c ≤ 'F' then some (c.toNat - 55)
  else if 'a' ≤ c ∧ c ≤ 'f' then some (c.toNat - 87)
  else none

/-- Modelled from the spec: the byte layer of JavaScript `decodeURIComponent`
(used by the ambient router when extracting route params, §4.3): percent
escapes turn into their byte, any literal character contributes its own
UTF-8 bytes. -/
def pctDecodeBytes : Str → Option (List Nat)
  | [] => some []
  | c :: rest =>
    if c = '%' then
      match rest with
      | h :: l :: rest2 =>
        (hexVal h).bind (fun a => (hexVal l).bind (fun b =>
          (pctDecodeBytes rest2).map (fun t => (a * 16 + b) :: t)))
      | _ => none
    else (pctDecodeBytes rest).map (fun t => utf8EncodeCp c.toNat ++ t)

/-- Modelled from the spec: JavaScript `decodeURIComponent`. -/
def decodeURIComponent (s : Str) : Option Str :=
  (pctDecodeBytes s).bind utf8DecodeStr

/-- `decodeURIComponent` with the router's fall-back to the raw text when
decoding fails. -/
def decodeURIComponentSafe (s : Str) : Str :=
  (decodeURIComponent s).getD s

theorem hexVal_hexDigitChar (n : Nat) (h : n < 16) : hexVal (hexDigitChar n) = some n := by
  interval_cases n <;> decide

theorem pctDecodeBytes_pctByte (b : Nat) (hb : b < 256) (rest : Str) :
    pctDecodeBytes (pctByte b ++ rest) = (pctDecodeBytes rest).map ((b) :: ·) := by
  simp only [pctByte, List.cons_append, List.nil_append]
  rw [pctDecodeBytes.eq_def]
  simp only []
  rw [if_pos trivial]
  rw [hexVal_hexDigitChar _ (by omega), hexVal_hexDigitChar _ (by omega)]
  simp only [Option.bind_some, Option.some_bind]
  have hv : b / 16 * 16 + b % 16 = b := by omega
  rw [hv]

theorem pctDecodeBytes_literal (c : Char) (rest : Str) (h : ¬ c = '%') :
    pctDecodeBytes (c :: rest) = (pctDecodeBytes rest).map (fun t => utf8EncodeCp c.toNat ++ t) := by
  rw [pctDecodeBytes.eq_def]
  simp only []
  rw [if_neg h]

theorem utf8EncodeCp_lt_256 (n : Nat) (h : n < 0x110000) (b : Nat)
    (hb : b ∈ utf8EncodeCp n) : b < 256 := by
  unfold utf8EncodeCp at hb
  split_ifs at hb <;>
    simp only [List.mem_cons, List.mem_singleton, List.not_mem_nil, or_false] at hb <;>
    omega

theorem pctDecodeBytes_chunk (bs : List Nat) (h : ∀ b ∈ bs, b < 256) (rest : Str) :
    pctDecodeBytes ((bs.map pctByte).flatten ++ rest) =
      (pctDecodeBytes rest).map (bs ++ ·) := by
  induction bs with
  | nil => simp
  | cons b bt ih =>
    simp only [List.map_cons, List.flatten_cons, List.append_assoc]
    rw [pctDecodeBytes_pctByte b (h b (List.mem_cons_self b bt))]
    rw [ih (fun x hx => h x (List.mem_cons_of_mem b hx))]
    rw [Option.map_map]
    rfl

theorem pctDecodeBytes_encode_aux (s : Str) (rest : Str) :
    pctDecodeBytes (encodeURIComponent s ++ rest) =
      (pctDecodeBytes rest).map (utf8Bytes s ++ ·) := by
  induction s with
  | nil =>
    simp [encodeURIComponent, utf8Bytes]
  | cons c cs ih =>
    simp only [encodeURIComponent, utf8Bytes, List.map_cons, List.flatten_cons,
      List.append_assoc] at *
    by_cases hu : isUnreservedChar c
    · rw [if_pos hu]
      have hne : ¬ c = '%' := by
        rintro rfl
        exact absurd hu (by decide)
      simp only [List.cons_append, List.nil_append]
      rw [pctDecodeBytes_literal c _ hne, ih, Option.map_map]
      rfl
    · rw [if_neg hu]
      rw [pctDecodeBytes_chunk _ (utf8EncodeCp_lt_256 c.toNat (char_toNat_lt c)) _, ih,
        Option.map_map]
      rfl

theorem pctDecodeBytes_encode (s : Str) :
    pctDecodeBytes (encodeURIComponent s) = some (utf8Bytes s) := by
  have h := pctDecodeBytes_encode_aux s []
  simp only [List.append_nil] at h
  rw [h]
  have hnil : pctDecodeBytes [] = some [] := by rw [pctDecodeBytes.eq_def]
  rw [hnil]
  simp

theorem decodeURIComponent_encode (s : Str) :
    decodeURIComponent (encodeURIComponent s) = some s := by
  simp only [decodeURIComponent, pctDecodeBytes_encode, Option.some_bind]
  exact utf8DecodeStr_bytes s

theorem decodeURIComponentSafe_encode (s : Str) :
    decodeURIComponentSafe (encodeURIComponent s) = s := by
  simp [decodeURIComponentSafe, decodeURIComponent_encode]

theorem pctDecodeBytes_no_pct (s : Str) (h : ∀ c ∈ s, ¬ c = '%') :
    pctDecodeBytes s = some (utf8Bytes s) := by
  induction s with
  | nil => simp [pctDecodeBytes, utf8Bytes]
  | cons c cs ih =>
    rw [pctDecodeBytes_literal c _ (h c (List.mem_cons_self c cs))]
    rw [ih (fun x hx => h x (List.mem_cons_of_mem c hx))]
    simp [utf8Bytes]

theorem decodeURIComponentSafe_no_pct (s : Str) (h : ∀ c ∈ s, ¬ c = '%') :
    decodeURIComponentSafe s = s := by
  simp [decodeURIComponentSafe, decodeURIComponent, pctDecodeBytes_no_pct s h,
    utf8DecodeStr_bytes]

theorem hexDigitChar_safe (n : Nat) :
    hexDigitChar n ≠ '/' ∧ hexDigitChar n ≠ '#' ∧ hexDigitChar n ≠ '?' := by
  by_cases h : n < 16
  · interval_cases n <;> decide
  · have he : hexDigitChar n = 'F' := by
      unfold hexDigitChar
      apply List.getD_eq_default
      simp [strL]
      omega
    rw [he]
    decide

theorem isUnreservedChar_safe (c : Char) (h : isUnreservedChar c = true) :
    c ≠ '/' ∧ c ≠ '#' ∧ c ≠ '?' := by
  refine ⟨?_, ?_, ?_⟩ <;> rintro rfl <;> exact absurd h (by decide)

theorem encodeURIComponent_safe (s : Str) (c : Char) (hc : c ∈ encodeURIComponent s) :
    c ≠ '/' ∧ c ≠ '#' ∧ c ≠ '?' := by
  obtain ⟨a, ha, hca⟩ : ∃ a ∈ s, c ∈ (if isUnreservedChar a then [a]
      else ((utf8EncodeCp a.toNat).map pctByte).flatten) := by
    simp only [encodeURIComponent, List.mem_flatten, List.mem_map] at hc
    obtain ⟨chunk, ⟨d, hd, hdc⟩, hcchunk⟩ := hc
    exact ⟨d, hd, hdc ▸ hcchunk⟩
  by_cases hu : isUnreservedChar a
  · rw [if_pos hu] at hca
    simp only [List.mem_singleton] at hca
    subst hca
    exact isUnreservedChar_safe c hu
  · rw [if_neg hu] at hca
    obtain ⟨b, hb, hcb⟩ : ∃ b ∈ utf8EncodeCp a.toNat, c ∈ pctByte b := by
      simp only [List.mem_flatten, List.mem_map] at hca
      obtain ⟨pb, ⟨b, hb, hbc⟩, hcpb⟩ := hca
      exact ⟨b, hb, hbc ▸ hcpb⟩
    simp only [pctByte, List.mem_cons, List.mem_singleton, List.not_mem_nil, or_false] at hcb
    rcases hcb with rfl | rfl | rfl
    · exact ⟨by decide, by decide, by decide⟩
    · exact hexDigitChar_safe _
    · exact hexDigitChar_safe _

theorem utf8EncodeCp_ne_nil (n : Nat) : utf8EncodeCp n ≠ [] := by
  unfold utf8EncodeCp
  split_ifs <;> simp

theorem encodeURIComponent_ne_nil (s : Str) (h : s ≠ []) : encodeURIComponent s ≠ [] := by
  cases s with
  | nil => exact absurd rfl h
  | cons c cs =>
    simp only [encodeURIComponent, List.map_cons, List.flatten_cons]
    intro hcontra
    rw [List.append_eq_nil] at hcontra
    by_cases hu : isUnreservedChar c
    · rw [if_pos hu] at hcontra
      exact absurd hcontra.1 (by simp)
    · rw [if_neg hu] at hcontra
      have h1 := hcontra.1
      obtain ⟨b0, tl, hsh⟩ : ∃ b0 tl, utf8EncodeCp c.toNat = b0 :: tl := by
        cases hcp : utf8EncodeCp c.toNat with
        | nil => exact absurd hcp (utf8EncodeCp_ne_nil _)
        | cons x xs => exact ⟨x, xs, rfl⟩
      rw [hsh] at h1
      simp only [List.map_cons, List.flatten_cons, pctByte] at h1
      simp at h1

/-! ## List splitting utilities (model of JS `indexOf`-based splitting and
    `String.split`) -/

/-- Split at the first occurrence of `c`: returns the part before it and the
part from `c` on (`(s, [])` when `c` does not occur). -/
def breakAtChar (c : Char) : Str → Str × Str
  | [] => ([], [])
  | x :: xs =>
    if x = c then ([], x :: xs)
    else
      let r := breakAtChar c xs
      (x :: r.1, r.2)

/-- Model of JavaScript `split(c)`: the list of chunks between occurrences of
`c` (always non-empty, chunks may be empty). -/
def splitOnChar (c : Char) : Str → List Str
  | [] => [[]]
  | x :: xs =>
    if x = c then [] :: splitOnChar c xs
    else
      match splitOnChar c xs with
      | [] => [[x]]
      | h :: t => (x :: h) :: t

theorem breakAtChar_not_mem (c : Char) (xs : Str) (h : c ∉ xs) :
    breakAtChar c xs = (xs, []) := by
  induction xs with
  | nil => rfl
  | cons x xt ih =>
    have hx : ¬ x = c := by
      rintro rfl
      exact h (List.mem_cons_self x xt)
    simp only [breakAtChar, if_neg hx]
    rw [ih (fun hm => h (List.mem_cons_of_mem x hm))]

theorem breakAtChar_append (c : Char) (xs ys : Str) (h : c ∉ xs) :
    breakAtChar c (xs ++ c :: ys) = (xs, c :: ys) := by
  induction xs with
  | nil => simp [breakAtChar]
  | cons x xt ih =>
    have hx : ¬ x = c := by
      rintro rfl
      exact h (List.mem_cons_self x xt)
    simp only [List.cons_append, breakAtChar, if_neg hx, List.append_eq]
    rw [ih (fun hm => h (List.mem_cons_of_mem x hm))]

theorem splitOnChar_ne_nil (c : Char) (xs : Str) : splitOnChar c xs ≠ [] := by
  induction xs with
  | nil => simp [splitOnChar]
  | cons x xt ih =>
    simp only [splitOnChar]
    by_cases hx : x = c
    · rw [if_pos hx]
      simp
    · rw [if_neg hx]
      cases hsp : splitOnChar c xt with
      | nil => simp
      | cons h t => simp

theorem splitOnChar_not_mem (c : Char) (xs : Str) (h : c ∉ xs) :
    splitOnChar c xs = [xs] := by
  induction xs with
  | nil => rfl
  | cons x xt ih =>
    have hx : ¬ x = c := by
      rintro rfl
      exact h (List.mem_cons_self x xt)
    simp only [splitOnChar, if_neg hx]
    rw [ih (fun hm => h (List.mem_cons_of_mem x hm))]

theorem splitOnChar_append (c : Char) (xs ys : Str) (h : c ∉ xs) :
    splitOnChar c (xs ++ c :: ys) = xs :: splitOnChar c ys := by
  induction xs with
  | nil => simp [splitOnChar]
  | cons x xt ih =>
    have hx : ¬ x = c := by
      rintro rfl
      exact h (List.mem_cons_self x xt)
    simp only [List.cons_append, splitOnChar, if_neg hx, List.append_eq]
    rw [ih (fun hm => h (List.mem_cons_of_mem x hm))]

/-! ## The navigation tuple and the address codec -/

/-- The navigation tuple owned by the synchronizer (§3 of the spec). -/
@[ext]
structure NavTuple where
  project : Str
  version : Str
  page : Str
  hash : Str
  hideUi : Bool
deriving DecidableEq, Repr

/-- Source `getUrl` (Docs.tsx line 84): the address encoding
`#/<project>/<version>/<encodeURIComponent(page)><hash>` plus
`?hide-ui=true` iff `hideUi`. -/
def getUrl (project version page hash : Str) (hideUi : Bool) : Str :=
  '#' :: '/' :: (project ++ '/' :: (version ++ '/' ::
    (encodeURIComponent page ++ hash ++ (if hideUi then strL "?hide-ui=true" else []))))

/-- Encode a navigation tuple as an address. -/
def encodeTuple (t : NavTuple) : Str :=
  getUrl t.project t.version t.page t.hash t.hideUi

/-- Result of the ambient router's path parsing. -/
structure ParsedPath where
  pathname : Str
  search : Str
  locHash : Str
deriving DecidableEq, Repr

/-- Modelled from the spec: the ambient router's location parsing (external
collaborator, §4.3/§6) — everything from the first `#` of the fragment is the
location hash, then everything from the first `?` of the remainder is the
search, the rest is the pathname. -/
def parsePath (f : Str) : ParsedPath :=
  let bh := breakAtChar '#' f
  let bq := breakAtChar '?' bh.1
  ⟨bq.1, bq.2, bh.2⟩

/-- Modelled from the spec: route matching for `/:project/:version/:page`
with router-side percent decoding of each param (§4.3: route params give
`project`, `version`, `page`, already decoded). -/
def matchRoute (path : Str) : Option (Str × Str × Str) :=
  match splitOnChar '/' path with
  | [lead, p, v, pg] =>
    if lead = [] ∧ ¬ p = [] ∧ ¬ v = [] ∧ ¬ pg = [] then
      some (decodeURIComponentSafe p, decodeURIComponentSafe v, decodeURIComponentSafe pg)
    else none
  | _ => none

/-- Modelled from the spec: `searchParams.get` on the location search string —
the value of the first `key=value` entry, `none` when absent. -/
def searchGet (search key : Str) : Option Str :=
  let q := match search with
    | '?' :: r => r
    | s => s
  (splitOnChar '&' q).findSome? (fun entry =>
    let kv := breakAtChar '=' entry
    if kv.1 = key then some (kv.2.drop 1) else none)

/-- The caller-side extraction of the navigation tuple from the ambient
address (Docs.tsx lines 20-25 and 124-128): route params give `project`,
`version`, `page`; the fragment text before `?` is `hash`; `hide-ui` comes
from the query parameter or from the fragment text after `?`. -/
def decodeAddress (url : Str) : NavTuple :=
  let frag := ((breakAtChar '#' url).2).drop 1
  let pp := parsePath frag
  let params := matchRoute pp.pathname
  let project := match params with
    | some (p, _, _) => p
    | none => []
  let version := match params with
    | some (_, v, _) => v
    | none => strL "latest"
  let page := match params with
    | some (_, _, pg) => pg
    | none => strL "index.html"
  let hashParts := splitOnChar '?' pp.locHash
  let hash := hashParts.headD []
  let hideUi := (searchGet pp.search (strL "hide-ui") == some (strL "true")) ||
    (hashParts.get? 1 == some (strL "hide-ui=true"))
  ⟨project, version, page, hash, hideUi⟩

/-! ## Version records and the version comparator (external collaborator
    `ProjectRepository`, modelled from the spec §4.1/§6) -/

/-- A fetched version record (§3 of the spec). -/
structure ProjectDetails where
  name : Str
  tags : List Str
deriving DecidableEq, Repr

def digitVal (c : Char) : Option Nat :=
  if '0' ≤ c ∧ c ≤ '9' then some (c.toNat - 48) else none

/-- Parse a non-empty all-digit string as a natural number. -/
def parseNatStr (s : Str) : Option Nat :=
  if s = [] then none
  else
    s.foldl (fun acc c =>
      match acc, digitVal c with
      | some n, some d => some (n * 10 + d)
      | _, _ => none) (some 0)

structure SemVer where
  major : Nat
  minor : Nat
  patch : Nat
  pre : Str
deriving DecidableEq, Repr

/-- Modelled from the spec (§4.1): parse an identifier as a semantic version
`major.minor.patch` with an optional pre-release part after a hyphen. -/
def parseSemVer (s : Str) : Option SemVer :=
  let bp := breakAtChar '-' s
  match splitOnChar '.' bp.1 with
  | [a, b, c] =>
    match parseNatStr a, parseNatStr b, parseNatStr c with
    | some x, some y, some z => some ⟨x, y, z, bp.2.drop 1⟩
    | _, _, _ => none
  | _ => none

def ordNat (a b : Nat) : Ordering :=
  if a < b then .lt else if b < a then .gt else .eq

/-- Lexical fallback ordering on identifiers (by code point). -/
def ordStr : Str → Str → Ordering
  | [], [] => .eq
  | [], _ :: _ => .lt
  | _ :: _, [] => .gt
  | a :: as, b :: bs =>
    match ordNat a.toNat b.toNat with
    | .eq => ordStr as bs
    | o => o

/-- Pre-release precedence: equal strings are equal, a release (empty
pre-release) ranks above any pre-release, two pre-releases compare
lexically. -/
def comparePre (p q : Str) : Ordering :=
  if p = q then .eq
  else if p = [] then .gt
  else if q = [] then .lt
  else ordStr p q

/-- Modelled from the spec (§4.1): `ProjectRepository.compareVersions` —
semantic-version comparison of the record names when both parse, otherwise a
lexical fallback, so the order is total and deterministic. -/
def compareVersions (a b : ProjectDetails) : Ordering :=
  match parseSemVer a.name, parseSemVer b.name with
  | some x, some y =>
    match ordNat x.major y.major with
    | .eq =>
      match ordNat x.minor y.minor with
      | .eq =>
        match ordNat x.patch y.patch with
        | .eq => comparePre x.pre y.pre
        | o => o
      | o => o
    | o => o
  | _, _ => ordStr a.name b.name

/-- Stable insertion of a record into an ascending list. -/
def insertSorted (v : ProjectDetails) : List ProjectDetails → List ProjectDetails
  | [] => [v]
  | w :: ws =>
    if compareVersions v w = .gt then w :: insertSorted v ws
    else v :: w :: ws

/-- Model of `allVersions.sort(compareVersions)` (Docs.tsx line 50):
ascending stable sort by the comparator. -/
def sortVersions (vs : List ProjectDetails) : List ProjectDetails :=
  vs.foldr insertSorted []

/-- Modelled from the spec (§4.1): `ProjectRepository.getLatestVersion` —
the maximum record under the comparator, or the sentinel record named
`latest` when the collection is empty. -/
def getLatestVersion : List ProjectDetails → ProjectDetails
  | [] => ⟨strL "latest", []⟩
  | v :: vs => vs.foldl (fun acc w => if compareVersions acc w = .lt then w else acc) v

/-- Source (Docs.tsx line 64): all names and tags of the fetched records. -/
def versionsAndTags (vs : List ProjectDetails) : List Str :=
  (vs.map (fun v => v.name :: v.tags)).flatten

/-- Modelled from the spec (§6): `ProjectRepository.getProjectDocsURL`, the
opaque documentation-source address determined by project, version, page
and hash. -/
def getProjectDocsURL (project version page hash : Str) : Str :=
  strL "/doc/" ++ project ++ '/' :: (version ++ '/' :: (page ++ hash))

/-! ## The Docs component state machine (Docs.tsx) -/

/-- The state of the `Docs` component: React state (`versions`,
`loadingFailed`, `version`, `hideUi`, `iframeUpdateTrigger`), refs
(`project`, `page`, `hash`) and the memoised `iFrameSrc`. -/
structure DocsState where
  versions : List ProjectDetails
  loadingFailed : Bool
  project : Str
  page : Str
  hash : Str
  version : Str
  hideUi : Bool
  iframeUpdateTrigger : Nat
  iFrameSrc : Str
deriving DecidableEq, Repr

/-- The value computed by the `iFrameSrc` memo body (Docs.tsx lines 33-35). -/
def computeIFrameSrc (s : DocsState) : Str :=
  getProjectDocsURL s.project s.version s.page s.hash

/-- `useMemo` semantics for `iFrameSrc` (deps `[version,
iframeUpdateTrigger]`, Docs.tsx line 35): recompute the memoised value
exactly when a dep changed, otherwise keep the old value. -/
def applyMemo (old new : DocsState) : DocsState :=
  if new.version = old.version ∧ new.iframeUpdateTrigger = old.iframeUpdateTrigger then
    { new with iFrameSrc := old.iFrameSrc }
  else
    { new with iFrameSrc := computeIFrameSrc new }

/-- Initial state on mount (Docs.tsx lines 17-26), fields taken from the
route params / location, with the memo computed once. -/
def initDocsState (t : NavTuple) : DocsState :=
  let s : DocsState :=
    { versions := [], loadingFailed := false, project := t.project, page := t.page,
      hash := t.hash, version := t.version, hideUi := t.hideUi,
      iframeUpdateTrigger := 0, iFrameSrc := [] }
  { s with iFrameSrc := computeIFrameSrc s }

/-- Source `updateUrl` (Docs.tsx lines 88-91): the address pushed to the
ambient history. -/
def updateUrl (s : DocsState) (newVersion : Str) (hideUi : Bool) : Str :=
  getUrl s.project newVersion s.page s.hash hideUi

/-- Source `iFramePageChanged` (Docs.tsx lines 93-100). Returns the new
state and the address pushed to the ambient history, if any. -/
def iFramePageChanged (s : DocsState) (urlPage urlHash : Str) : DocsState × Option Str :=
  if urlPage = s.page then (s, none)
  else
    let s1 := { s with page := urlPage, hash := urlHash }
    (applyMemo s s1, some (updateUrl s1 s1.version s1.hideUi))

/-- Source `iFrameHashChanged` (Docs.tsx lines 102-108). -/
def iFrameHashChanged (s : DocsState) (newHash : Str) : DocsState × Option Str :=
  if newHash = s.hash then (s, none)
  else
    let s1 := { s with hash := newHash }
    (applyMemo s s1, some (updateUrl s1 s1.version s1.hideUi))

/-- Source `onVersionChanged` (Docs.tsx lines 110-116). -/
def onVersionChanged (s : DocsState) (newVersion : Str) : DocsState × Option Str :=
  if newVersion = s.version then (s, none)
  else
    let s1 := { s with version := newVersion }
    (applyMemo s s1, some (updateUrl s1 newVersion s1.hideUi))

/-- Source `onHideUi` (Docs.tsx lines 118-121). -/
def onHideUi (s : DocsState) : DocsState × Option Str :=
  let s1 := { s with hideUi := true }
  (applyMemo s s1, some (updateUrl s1 s1.version true))

/-- Source location-decode effect (Docs.tsx lines 123-152): on an ambient
address change, re-derive the tuple fields from the address and update each
in-memory field that differs; `page`/`hash` differences additionally bump
the iframe update trigger. Pushes nothing. -/
def locUpdateProject (t : NavTuple) (s : DocsState) : DocsState :=
  if ¬ t.project = s.project then { s with versions := [], project := t.project } else s

def locUpdateVersion (t : NavTuple) (s : DocsState) : DocsState :=
  if ¬ t.version = s.version then { s with version := t.version } else s

def locUpdateHideUi (t : NavTuple) (s : DocsState) : DocsState :=
  if ¬ t.hideUi = s.hideUi then { s with hideUi := t.hideUi } else s

def locUpdatePage (t : NavTuple) (s : DocsState) : DocsState :=
  if ¬ t.page = s.page then
    { s with page := t.page, iframeUpdateTrigger := s.iframeUpdateTrigger + 1 }
  else s

def locUpdateHash (t : NavTuple) (s : DocsState) : DocsState :=
  if ¬ t.hash = s.hash then
    { s with hash := t.hash, iframeUpdateTrigger := s.iframeUpdateTrigger + 1 }
  else s

def locationApply (s : DocsState) (t : NavTuple) : DocsState :=
  applyMemo s (locUpdateHash t (locUpdatePage t (locUpdateHideUi t
    (locUpdateVersion t (locUpdateProject t s)))))

def locationEffect (s : DocsState) (url : Str) : DocsState × Option Str :=
  (locationApply s (decodeAddress url), none)

/-- Source version-resolution effect (Docs.tsx lines 37-77), with the
fetched collection passed as input: empty collection fails; the alias
`latest` resolves to the latest concrete version unless the latest name is
the sentinel `latest` itself; a concrete version must be one of the fetched
names or tags, otherwise the load fails. Pushes nothing. -/
def resolveEffect (s : DocsState) (allVersions : List ProjectDetails) :
    DocsState × Option Str :=
  if s.project = [] then (s, none)
  else if allVersions = [] then ({ s with loadingFailed := true }, none)
  else
    let sorted := sortVersions allVersions
    let s1 := { s with versions := sorted }
    let latestName := (getLatestVersion sorted).name
    if s.version = strL "latest" then
      if latestName = strL "latest" then (applyMemo s s1, none)
      else (applyMemo s { s1 with version := latestName }, none)
    else if s.version ∈ versionsAndTags sorted then (applyMemo s s1, none)
    else (applyMemo s { s1 with loadingFailed := true }, none)

/-- A persistent banner message (§4.5). -/
structure BannerMessage where
  content : Str
  msgType : Str
  showMs : Option Nat
deriving DecidableEq, Repr

/-- Effect of one run of the outdated-version banner hook. -/
inductive BannerAction where
  | keep
  | clear
  | raise (m : BannerMessage)
deriving DecidableEq, Repr

/-- Source outdated-banner effect (Docs.tsx lines 154-172). -/
def bannerEffect (s : DocsState) : BannerAction :=
  if s.versions = [] then .keep
  else if s.version = (getLatestVersion s.versions).name then .clear
  else .raise ⟨strL "You are viewing an outdated version of the documentation.",
    strL "warning", none⟩

/-- What the component renders (Docs.tsx lines 174-198). -/
inductive View where
  | notFound
  | loadingPage
  | docsView
deriving DecidableEq, Repr

def render (s : DocsState) : View :=
  if s.loadingFailed ∨ s.project = [] then .notFound
  else if s.versions = [] then .loadingPage
  else .docsView

/-- Viewer-reported navigation events (§6). -/
inductive ViewerEvent where
  | pageChanged (p h : Str)
  | hashChanged (h : Str)
deriving DecidableEq, Repr

def stepViewer (s : DocsState) : ViewerEvent → DocsState
  | .pageChanged p h => (iFramePageChanged s p h).1
  | .hashChanged h => (iFrameHashChanged s h).1

/-- Run a sequence of viewer-reported events. -/
def runViewer (s : DocsState) (es : List ViewerEvent) : DocsState :=
  es.foldl stepViewer s

/-! ## Transition lemmas -/

theorem stepViewer_preserves (s : DocsState) (e : ViewerEvent) :
    (stepViewer s e).iFrameSrc = s.iFrameSrc ∧ (stepViewer s e).version = s.version ∧
    (stepViewer s e).project = s.project := by
  cases e with
  | pageChanged p h =>
    simp only [stepViewer, iFramePageChanged]
    by_cases hp : p = s.page
    · rw [if_pos hp]
      exact ⟨rfl, rfl, rfl⟩
    · rw [if_neg hp]
      simp [applyMemo]
  | hashChanged h =>
    simp only [stepViewer, iFrameHashChanged]
    by_cases hh : h = s.hash
    · rw [if_pos hh]
      exact ⟨rfl, rfl, rfl⟩
    · rw [if_neg hh]
      simp [applyMemo]

theorem runViewer_preserves (s : DocsState) (es : List ViewerEvent) :
    (runViewer s es).iFrameSrc = s.iFrameSrc ∧ (runViewer s es).version = s.version ∧
    (runViewer s es).project = s.project := by
  induction es generalizing s with
  | nil => exact ⟨rfl, rfl, rfl⟩
  | cons e et ih =>
    simp only [runViewer, List.foldl_cons]
    have h1 := stepViewer_preserves s e
    have h2 := ih (stepViewer s e)
    simp only [runViewer] at h2
    exact ⟨h2.1.trans h1.1, h2.2.1.trans h1.2.1, h2.2.2.trans h1.2.2⟩

/-- hide-ui is preserved by every non-location transition. -/
theorem transitions_preserve_hideUi (s : DocsState) (p h nh v : Str) (hui : s.hideUi = true) :
    (iFramePageChanged s p h).1.hideUi = true ∧
    (iFrameHashChanged s nh).1.hideUi = true ∧
    (onVersionChanged s v).1.hideUi = true ∧
    (onHideUi s).1.hideUi = true := by
  refine ⟨?_, ?_, ?_, ?_⟩
  · simp only [iFramePageChanged]
    by_cases hp : p = s.page
    · rw [if_pos hp]; exact hui
    · rw [if_neg hp]
      simp only [applyMemo]
      split_ifs <;> exact hui
  · simp only [iFrameHashChanged]
    by_cases hh : nh = s.hash
    · rw [if_pos hh]; exact hui
    · rw [if_neg hh]
      simp only [applyMemo]
      split_ifs <;> exact hui
  · simp only [onVersionChanged]
    by_cases hv : v = s.version
    · rw [if_pos hv]; exact hui
    · rw [if_neg hv]
      simp only [applyMemo]
      split_ifs <;> exact hui
  · simp only [onHideUi, applyMemo]
    split_ifs <;> rfl


theorem applyMemo_fields (old new : DocsState) :
    (applyMemo old new).versions = new.versions ∧
    (applyMemo old new).loadingFailed = new.loadingFailed ∧
    (applyMemo old new).project = new.project ∧
    (applyMemo old new).page = new.page ∧
    (applyMemo old new).hash = new.hash ∧
    (applyMemo old new).version = new.version ∧
    (applyMemo old new).hideUi = new.hideUi ∧
    (applyMemo old new).iframeUpdateTrigger = new.iframeUpdateTrigger := by
  unfold applyMemo
  split_ifs <;> exact ⟨rfl, rfl, rfl, rfl, rfl, rfl, rfl, rfl⟩

theorem locUpdateProject_project (t : NavTuple) (s : DocsState) :
    (locUpdateProject t s).project = t.project := by
  unfold locUpdateProject
  split_ifs with h
  · exact h.symm
  · rfl

theorem locUpdateProject_rest (t : NavTuple) (s : DocsState) :
    (locUpdateProject t s).version = s.version ∧ (locUpdateProject t s).hideUi = s.hideUi ∧
    (locUpdateProject t s).page = s.page ∧ (locUpdateProject t s).hash = s.hash ∧
    (locUpdateProject t s).iframeUpdateTrigger = s.iframeUpdateTrigger ∧
    (locUpdateProject t s).loadingFailed = s.loadingFailed ∧
    (locUpdateProject t s).iFrameSrc = s.iFrameSrc := by
  unfold locUpdateProject
  split_ifs <;> exact ⟨rfl, rfl, rfl, rfl, rfl, rfl, rfl⟩

theorem locUpdateVersion_version (t : NavTuple) (s : DocsState) :
    (locUpdateVersion t s).version = t.version := by
  unfold locUpdateVersion
  split_ifs with h
  · exact h.symm
  · rfl

theorem locUpdateVersion_rest (t : NavTuple) (s : DocsState) :
    (locUpdateVersion t s).project = s.project ∧ (locUpdateVersion t s).hideUi = s.hideUi ∧
    (locUpdateVersion t s).page = s.page ∧ (locUpdateVersion t s).hash = s.hash ∧
    (locUpdateVersion t s).iframeUpdateTrigger = s.iframeUpdateTrigger ∧
    (locUpdateVersion t s).loadingFailed = s.loadingFailed ∧
    (locUpdateVersion t s).iFrameSrc = s.iFrameSrc ∧
    (locUpdateVersion t s).versions = s.versions := by
  unfold locUpdateVersion
  split_ifs <;> exact ⟨rfl, rfl, rfl, rfl, rfl, rfl, rfl, rfl⟩

theorem locUpdateHideUi_hideUi (t : NavTuple) (s : DocsState) :
    (locUpdateHideUi t s).hideUi = t.hideUi := by
  unfold locUpdateHideUi
  split_ifs with h
  · exact h.symm
  · rfl

theorem locUpdateHideUi_rest (t : NavTuple) (s : DocsState) :
    (locUpdateHideUi t s).project = s.project ∧ (locUpdateHideUi t s).version = s.version ∧
    (locUpdateHideUi t s).page = s.page ∧ (locUpdateHideUi t s).hash = s.hash ∧
    (locUpdateHideUi t s).iframeUpdateTrigger = s.iframeUpdateTrigger ∧
    (locUpdateHideUi t s).loadingFailed = s.loadingFailed ∧
    (locUpdateHideUi t s).iFrameSrc = s.iFrameSrc ∧
    (locUpdateHideUi t s).versions = s.versions := by
  unfold locUpdateHideUi
  split_ifs <;> exact ⟨rfl, rfl, rfl, rfl, rfl, rfl, rfl, rfl⟩

theorem locUpdatePage_page (t : NavTuple) (s : DocsState) :
    (locUpdatePage t s).page = t.page := by
  unfold locUpdatePage
  split_ifs with h
  · exact h.symm
  · rfl

theorem locUpdatePage_rest (t : NavTuple) (s : DocsState) :
    (locUpdatePage t s).project = s.project ∧ (locUpdatePage t s).version = s.version ∧
    (locUpdatePage t s).hideUi = s.hideUi ∧ (locUpdatePage t s).hash = s.hash ∧
    (locUpdatePage t s).loadingFailed = s.loadingFailed ∧
    (locUpdatePage t s).iFrameSrc = s.iFrameSrc ∧
    (locUpdatePage t s).versions = s.versions := by
  unfold locUpdatePage
  split_ifs <;> exact ⟨rfl, rfl, rfl, rfl, rfl, rfl, rfl⟩

theorem locUpdatePage_trigger_same (t : NavTuple) (s : DocsState) (h : t.page = s.page) :
    locUpdatePage t s = s := by
  unfold locUpdatePage
  rw [if_neg (not_not_intro h)]

theorem locUpdatePage_trigger_bump (t : NavTuple) (s : DocsState) (h : ¬ t.page = s.page) :
    (locUpdatePage t s).iframeUpdateTrigger = s.iframeUpdateTrigger + 1 := by
  unfold locUpdatePage
  rw [if_pos h]

theorem locUpdateHash_hash (t : NavTuple) (s : DocsState) :
    (locUpdateHash t s).hash = t.hash := by
  unfold locUpdateHash
  split_ifs with h
  · exact h.symm
  · rfl

theorem locUpdateHash_rest (t : NavTuple) (s : DocsState) :
    (locUpdateHash t s).project = s.project ∧ (locUpdateHash t s).version = s.version ∧
    (locUpdateHash t s).hideUi = s.hideUi ∧ (locUpdateHash t s).page = s.page ∧
    (locUpdateHash t s).loadingFailed = s.loadingFailed ∧
    (locUpdateHash t s).iFrameSrc = s.iFrameSrc ∧
    (locUpdateHash t s).versions = s.versions := by
  unfold locUpdateHash
  split_ifs <;> exact ⟨rfl, rfl, rfl, rfl, rfl, rfl, rfl⟩

theorem locUpdateHash_trigger_same (t : NavTuple) (s : DocsState) (h : t.hash = s.hash) :
    locUpdateHash t s = s := by
  unfold locUpdateHash
  rw [if_neg (not_not_intro h)]

theorem locUpdateHash_trigger_mono (t : NavTuple) (s : DocsState) :
    s.iframeUpdateTrigger ≤ (locUpdateHash t s).iframeUpdateTrigger := by
  unfold locUpdateHash
  split_ifs <;> simp

theorem locationApply_loadingFailed (s : DocsState) (t : NavTuple) :
    (locationApply s t).loadingFailed = s.loadingFailed := by
  unfold locationApply
  rw [(applyMemo_fields _ _).2.1,
    (locUpdateHash_rest _ _).2.2.2.2.1,
    (locUpdatePage_rest _ _).2.2.2.2.1,
    (locUpdateHideUi_rest _ _).2.2.2.2.2.1,
    (locUpdateVersion_rest _ _).2.2.2.2.2.1,
    (locUpdateProject_rest _ _).2.2.2.2.2.1]

theorem locationApply_version (s : DocsState) (t : NavTuple) :
    (locationApply s t).version = t.version := by
  unfold locationApply
  rw [(applyMemo_fields _ _).2.2.2.2.2.1,
    (locUpdateHash_rest _ _).2.1,
    (locUpdatePage_rest _ _).2.1,
    (locUpdateHideUi_rest _ _).2.1,
    locUpdateVersion_version]

theorem locationApply_src_keep (s : DocsState) (t : NavTuple)
    (h1 : t.version = s.version) (h2 : t.page = s.page) (h3 : t.hash = s.hash) :
    (locationApply s t).iFrameSrc = s.iFrameSrc := by
  unfold locationApply
  set s3 := locUpdateHideUi t (locUpdateVersion t (locUpdateProject t s)) with hs3
  have hp3 : s3.page = s.page := by
    rw [hs3, (locUpdateHideUi_rest _ _).2.2.1, (locUpdateVersion_rest _ _).2.2.1,
      (locUpdateProject_rest _ _).2.2.1]
  have hh3 : s3.hash = s.hash := by
    rw [hs3, (locUpdateHideUi_rest _ _).2.2.2.1, (locUpdateVersion_rest _ _).2.2.2.1,
      (locUpdateProject_rest _ _).2.2.2.1]
  have hv3 : s3.version = s.version := by
    rw [hs3, (locUpdateHideUi_rest _ _).2.1, locUpdateVersion_version]
    exact h1
  have ht3 : s3.iframeUpdateTrigger = s.iframeUpdateTrigger := by
    rw [hs3, (locUpdateHideUi_rest _ _).2.2.2.2.1, (locUpdateVersion_rest _ _).2.2.2.2.1,
      (locUpdateProject_rest _ _).2.2.2.2.1]
  rw [locUpdatePage_trigger_same t s3 (by rw [hp3]; exact h2)]
  rw [locUpdateHash_trigger_same t s3 (by rw [hh3]; exact h3)]
  unfold applyMemo
  rw [if_pos ⟨hv3, ht3⟩]

theorem locationApply_src_recompute (s : DocsState) (t : NavTuple)
    (h : ¬ t.page = s.page ∨ ¬ t.hash = s.hash) :
    (locationApply s t).iFrameSrc = computeIFrameSrc (locationApply s t) := by
  unfold locationApply
  set s3 := locUpdateHideUi t (locUpdateVersion t (locUpdateProject t s)) with hs3
  have hp3 : s3.page = s.page := by
    rw [hs3, (locUpdateHideUi_rest _ _).2.2.1, (locUpdateVersion_rest _ _).2.2.1,
      (locUpdateProject_rest _ _).2.2.1]
  have hh3 : s3.hash = s.hash := by
    rw [hs3, (locUpdateHideUi_rest _ _).2.2.2.1, (locUpdateVersion_rest _ _).2.2.2.1,
      (locUpdateProject_rest _ _).2.2.2.1]
  have ht3 : s3.iframeUpdateTrigger = s.iframeUpdateTrigger := by
    rw [hs3, (locUpdateHideUi_rest _ _).2.2.2.2.1, (locUpdateVersion_rest _ _).2.2.2.2.1,
      (locUpdateProject_rest _ _).2.2.2.2.1]
  set s4 := locUpdatePage t s3 with hs4
  set s5 := locUpdateHash t s4 with hs5
  have htrig : s.iframeUpdateTrigger < s5.iframeUpdateTrigger := by
    have hmono := locUpdateHash_trigger_mono t s4
    rw [← hs5] at hmono
    rcases h with hpg | hhs
    · have hb : s4.iframeUpdateTrigger = s3.iframeUpdateTrigger + 1 := by
        rw [hs4, locUpdatePage_trigger_bump t s3 (by rw [hp3]; exact hpg)]
      omega
    · by_cases hpg : t.page = s3.page
      · have he4 : s4 = s3 := by rw [hs4, locUpdatePage_trigger_same t s3 hpg]
        have hh4 : s4.hash = s.hash := by rw [he4, hh3]
        have hb : s5.iframeUpdateTrigger = s4.iframeUpdateTrigger + 1 := by
          rw [hs5]
          unfold locUpdateHash
          rw [if_pos (by rw [hh4]; exact hhs)]
        rw [he4] at hb
        omega
      · have hb : s4.iframeUpdateTrigger = s3.iframeUpdateTrigger + 1 := by
          rw [hs4, locUpdatePage_trigger_bump t s3 hpg]
        omega
  unfold applyMemo
  rw [if_neg (fun hc => absurd hc.2 (by omega))]
  rfl

/-! ## Sorting and resolution lemmas -/

theorem insertSorted_perm (v : ProjectDetails) (l : List ProjectDetails) :
    List.Perm (insertSorted v l) (v :: l) := by
  induction l with
  | nil => exact List.Perm.refl _
  | cons w ws ih =>
    unfold insertSorted
    split_ifs with h
    · exact (ih.cons w).trans (List.Perm.swap v w ws)
    · exact List.Perm.refl _

theorem sortVersions_perm (vs : List ProjectDetails) : List.Perm (sortVersions vs) vs := by
  induction vs with
  | nil => exact List.Perm.refl _
  | cons v vt ih =>
    unfold sortVersions at *
    simp only [List.foldr_cons]
    exact (insertSorted_perm v _).trans (ih.cons v)

theorem mem_versionsAndTags_sort (x : Str) (vs : List ProjectDetails) :
    x ∈ versionsAndTags (sortVersions vs) ↔ x ∈ versionsAndTags vs := by
  simp only [versionsAndTags, List.mem_flatten, List.mem_map]
  constructor
  · rintro ⟨l, ⟨v, hv, rfl⟩, hx⟩
    exact ⟨_, ⟨v, (sortVersions_perm vs).subset hv, rfl⟩, hx⟩
  · rintro ⟨l, ⟨v, hv, rfl⟩, hx⟩
    exact ⟨_, ⟨v, (sortVersions_perm vs).symm.subset hv, rfl⟩, hx⟩

/-- C5 -/
theorem c5_viewer_events_no_reload (s : DocsState) (es : List ViewerEvent) (p h nh : Str) :
    (runViewer s es).iFrameSrc = s.iFrameSrc ∧
    (runViewer s es).version = s.version ∧
    (runViewer s es).project = s.project ∧
    (¬ p = s.page → iFramePageChanged s p h =
      ({ s with page := p, hash := h }, some (getUrl s.project s.version p h s.hideUi))) ∧
    (¬ nh = s.hash → iFrameHashChanged s nh =
      ({ s with hash := nh }, some (getUrl s.project s.version s.page nh s.hideUi))) := by
  refine ⟨(runViewer_preserves s es).1, (runViewer_preserves s es).2.1,
    (runViewer_preserves s es).2.2, fun hp => ?_, fun hh => ?_⟩
  · simp only [iFramePageChanged]
    rw [if_neg hp]
    unfold applyMemo
    rw [if_pos ⟨rfl, rfl⟩]
    rfl
  · simp only [iFrameHashChanged]
    rw [if_neg hh]
    unfold applyMemo
    rw [if_pos ⟨rfl, rfl⟩]
    rfl

/-- C6 -/
theorem c6_explicit_version_selection (s : DocsState) (v : Str) :
    (v = s.version → onVersionChanged s v = (s, none)) ∧
    (¬ v = s.version →
      onVersionChanged s v =
        ({ s with version := v, iFrameSrc := getProjectDocsURL s.project v s.page s.hash },
         some (getUrl s.project v s.page s.hash s.hideUi))) := by
  constructor
  · intro hv
    simp only [onVersionChanged]
    rw [if_pos hv]
  · intro hv
    simp only [onVersionChanged]
    rw [if_neg hv]
    unfold applyMemo
    rw [if_neg (fun hc => hv hc.1)]
    rfl

/-- C8 -/
theorem c8_empty_version_set (s : DocsState) (hp : ¬ s.project = []) :
    (resolveEffect s []).1.loadingFailed = true ∧
    render ((resolveEffect s []).1) = View.notFound := by
  unfold resolveEffect
  rw [if_neg hp]
  simp only [reduceIte]
  refine ⟨by simp, ?_⟩
  unfold render
  rw [if_pos (Or.inl rfl)]

/-- C9 -/
theorem c9_outdated_banner (s : DocsState) :
    (s.versions = [] → bannerEffect s = BannerAction.keep) ∧
    (¬ s.versions = [] → s.version = (getLatestVersion s.versions).name →
      bannerEffect s = BannerAction.clear) ∧
    (¬ s.versions = [] → ¬ s.version = (getLatestVersion s.versions).name →
      bannerEffect s = BannerAction.raise
        ⟨strL "You are viewing an outdated version of the documentation.",
         strL "warning", none⟩) := by
  refine ⟨fun h => ?_, fun h1 h2 => ?_, fun h1 h2 => ?_⟩
  · unfold bannerEffect
    rw [if_pos h]
  · unfold bannerEffect
    rw [if_neg h1, if_pos h2]
  · unfold bannerEffect
    rw [if_neg h1, if_neg h2]

/-- C3 amended -/
theorem c3_hideui_one_directional (s : DocsState) (p h nh v : Str) (hui : s.hideUi = true) :
    (iFramePageChanged s p h).1.hideUi = true ∧
    (iFrameHashChanged s nh).1.hideUi = true ∧
    (onVersionChanged s v).1.hideUi = true ∧
    (onHideUi s).1.hideUi = true :=
  transitions_preserve_hideUi s p h nh v hui

/-- C4 amended -/
theorem c4_reload_avoidance (s : DocsState) (p h nh v url : Str) :
    (iFramePageChanged s p h).1.iFrameSrc = s.iFrameSrc ∧
    (iFrameHashChanged s nh).1.iFrameSrc = s.iFrameSrc ∧
    (onHideUi s).1.iFrameSrc = s.iFrameSrc ∧
    (v = s.version → (onVersionChanged s v).1.iFrameSrc = s.iFrameSrc) ∧
    ((decodeAddress url).version = s.version → (decodeAddress url).page = s.page →
      (decodeAddress url).hash = s.hash →
      (locationEffect s url).1.iFrameSrc = s.iFrameSrc) ∧
    (¬ (decodeAddress url).page = s.page ∨ ¬ (decodeAddress url).hash = s.hash →
      (locationEffect s url).1.iFrameSrc = computeIFrameSrc ((locationEffect s url).1)) := by
  refine ⟨?_, ?_, ?_, fun hv => ?_, fun h1 h2 h3 => ?_, fun hor => ?_⟩
  · exact (stepViewer_preserves s (ViewerEvent.pageChanged p h)).1
  · exact (stepViewer_preserves s (ViewerEvent.hashChanged nh)).1
  · simp only [onHideUi]
    unfold applyMemo
    rw [if_pos ⟨rfl, rfl⟩]
  · simp only [onVersionChanged]
    rw [if_pos hv]
  · exact locationApply_src_keep s (decodeAddress url) h1 h2 h3
  · exact locationApply_src_recompute s (decodeAddress url) hor

/-- C10 -/
theorem c10_no_membership_recheck (s : DocsState) (v url : Str) :
    (¬ v = s.version →
      (onVersionChanged s v).1.version = v ∧
      (onVersionChanged s v).1.loadingFailed = s.loadingFailed ∧
      (onVersionChanged s v).2 = some (getUrl s.project v s.page s.hash s.hideUi)) ∧
    ((locationEffect s url).1.loadingFailed = s.loadingFailed) ∧
    ((locationEffect s url).1.version = (decodeAddress url).version) := by
  refine ⟨fun hv => ?_, locationApply_loadingFailed s (decodeAddress url),
    locationApply_version s (decodeAddress url)⟩
  simp only [onVersionChanged]
  rw [if_neg hv]
  unfold applyMemo
  rw [if_neg (fun hc => hv hc.1)]
  exact ⟨rfl, rfl, rfl⟩

/-- C7 -/
theorem c7_unknown_version (s : DocsState) (vs : List ProjectDetails)
    (hp : ¬ s.project = []) (hv : ¬ s.version = strL "latest") (hvs : ¬ vs = [])
    (hlf : s.loadingFailed = false) :
    (s.version ∈ versionsAndTags vs →
      (resolveEffect s vs).1.loadingFailed = false ∧
      (resolveEffect s vs).1.version = s.version ∧
      (resolveEffect s vs).1.versions = sortVersions vs) ∧
    (s.version ∉ versionsAndTags vs →
      (resolveEffect s vs).1.loadingFailed = true ∧
      render ((resolveEffect s vs).1) = View.notFound) := by
  constructor
  · intro hmem
    unfold resolveEffect
    rw [if_neg hp, if_neg hvs, if_neg hv,
      if_pos ((mem_versionsAndTags_sort s.version vs).mpr hmem)]
    unfold applyMemo
    rw [if_pos ⟨rfl, rfl⟩]
    exact ⟨hlf, rfl, rfl⟩
  · intro hmem
    unfold resolveEffect
    rw [if_neg hp, if_neg hvs, if_neg hv,
      if_neg (fun hc => hmem ((mem_versionsAndTags_sort s.version vs).mp hc))]
    unfold applyMemo
    rw [if_pos ⟨rfl, rfl⟩]
    refine ⟨rfl, ?_⟩
    unfold render
    rw [if_pos (Or.inl rfl)]

/-- C1 amended -/
theorem c1_latest_resolution (s : DocsState) (vs : List ProjectDetails)
    (hp : ¬ s.project = []) (hl : s.version = strL "latest") (hvs : ¬ vs = []) :
    (resolveEffect s vs).2 = none ∧
    (¬ (getLatestVersion (sortVersions vs)).name = strL "latest" →
      (resolveEffect s vs).1.version = (getLatestVersion (sortVersions vs)).name ∧
      (resolveEffect s vs).1.loadingFailed = s.loadingFailed ∧
      (resolveEffect s vs).1.iFrameSrc =
        getProjectDocsURL s.project ((getLatestVersion (sortVersions vs)).name) s.page s.hash) ∧
    ((getLatestVersion (sortVersions vs)).name = strL "latest" →
      (resolveEffect s vs).1.version = s.version ∧
      (resolveEffect s vs).1.loadingFailed = s.loadingFailed ∧
      (resolveEffect s vs).1.versions = sortVersions vs ∧
      (resolveEffect s vs).1.iFrameSrc = s.iFrameSrc) := by
  refine ⟨?_, fun hsent => ?_, fun hsent => ?_⟩
  · unfold resolveEffect
    rw [if_neg hp, if_neg hvs, if_pos hl]
    split_ifs <;> rfl
  · unfold resolveEffect
    rw [if_neg hp, if_neg hvs, if_pos hl, if_neg hsent]
    unfold applyMemo
    rw [if_neg (fun hc => hsent (hc.1.trans hl))]
    exact ⟨rfl, rfl, rfl⟩
  · unfold resolveEffect
    rw [if_neg hp, if_neg hvs, if_pos hl, if_pos hsent]
    unfold applyMemo
    rw [if_pos ⟨rfl, rfl⟩]
    exact ⟨rfl, rfl, rfl, rfl⟩

/-! ## Sample data for witnesses and counterexamples -/

def sampleVersions : List ProjectDetails :=
  [⟨strL "1.0.0", []⟩, ⟨strL "1.2.0", [strL "stable"]⟩, ⟨strL "1.1.0", []⟩]

def sampleState : DocsState :=
  initDocsState ⟨strL "proj", strL "1.0.0", strL "index.html", [], false⟩

def sampleLatest : DocsState :=
  initDocsState ⟨strL "proj", strL "latest", strL "index.html", [], false⟩

def sampleHide : DocsState :=
  initDocsState ⟨strL "proj", strL "1.0.0", strL "index.html", [], true⟩

theorem c1_latest_resolution_witness :
    (resolveEffect sampleLatest sampleVersions).2 = none ∧
    (resolveEffect sampleLatest sampleVersions).1.version =
      (getLatestVersion (sortVersions sampleVersions)).name ∧
    (resolveEffect sampleLatest sampleVersions).1.loadingFailed = sampleLatest.loadingFailed := by
  have h := c1_latest_resolution sampleLatest sampleVersions (by decide) (by decide) (by decide)
  exact ⟨h.1, (h.2.1 (by decide)).1, (h.2.1 (by decide)).2.1⟩

theorem c1_ambient_address_counterexample :
    (resolveEffect sampleLatest [⟨strL "1.0.0", []⟩]).1.version = strL "1.0.0" ∧
    (resolveEffect sampleLatest [⟨strL "1.0.0", []⟩]).2 = none := by
  decide

theorem c3_hideui_one_directional_witness :
    (iFramePageChanged sampleHide (strL "other.html") (strL "#x")).1.hideUi = true ∧
    (iFrameHashChanged sampleHide (strL "#y")).1.hideUi = true ∧
    (onVersionChanged sampleHide (strL "1.2.0")).1.hideUi = true ∧
    (onHideUi sampleHide).1.hideUi = true :=
  c3_hideui_one_directional sampleHide (strL "other.html") (strL "#x") (strL "#y")
    (strL "1.2.0") (by decide)

theorem c3_hideui_counterexample :
    sampleHide.hideUi = true ∧
    (decodeAddress (encodeTuple ⟨strL "proj", strL "1.0.0", strL "index.html", [], false⟩)).project
      = sampleHide.project ∧
    (locationEffect sampleHide
      (encodeTuple ⟨strL "proj", strL "1.0.0", strL "index.html", [], false⟩)).1.hideUi = false := by
  decide

theorem c4_reload_avoidance_witness :
    (iFramePageChanged sampleState (strL "other.html") (strL "#x")).1.iFrameSrc
      = sampleState.iFrameSrc ∧
    (locationEffect sampleState
        (encodeTuple ⟨strL "proj", strL "1.0.0", strL "other.html", [], false⟩)).1.iFrameSrc =
      computeIFrameSrc ((locationEffect sampleState
        (encodeTuple ⟨strL "proj", strL "1.0.0", strL "other.html", [], false⟩)).1) := by
  have h := c4_reload_avoidance sampleState (strL "other.html") (strL "#x") (strL "#y")
    (strL "1.0.0") (encodeTuple ⟨strL "proj", strL "1.0.0", strL "other.html", [], false⟩)
  exact ⟨h.1, h.2.2.2.2.2 (Or.inl (by decide))⟩

theorem c4_reload_avoidance_counterexample :
    (decodeAddress (encodeTuple ⟨strL "proj", strL "1.0.0", strL "other.html", [], false⟩)).project
      = sampleState.project ∧
    (decodeAddress (encodeTuple ⟨strL "proj", strL "1.0.0", strL "other.html", [], false⟩)).version
      = sampleState.version ∧
    (locationEffect sampleState
      (encodeTuple ⟨strL "proj", strL "1.0.0", strL "other.html", [], false⟩)).1.version
      = sampleState.version ∧
    (locationEffect sampleState
      (encodeTuple ⟨strL "proj", strL "1.0.0", strL "other.html", [], false⟩)).1.project
      = sampleState.project ∧
    ¬ (locationEffect sampleState
      (encodeTuple ⟨strL "proj", strL "1.0.0", strL "other.html", [], false⟩)).1.page
      = sampleState.page ∧
    ¬ (locationEffect sampleState
      (encodeTuple ⟨strL "proj", strL "1.0.0", strL "other.html", [], false⟩)).1.iFrameSrc
      = sampleState.iFrameSrc := by
  decide

theorem c5_viewer_events_no_reload_witness :
    (runViewer sampleState
      [ViewerEvent.pageChanged (strL "other.html") (strL "#x"),
       ViewerEvent.hashChanged (strL "#y")]).iFrameSrc = sampleState.iFrameSrc ∧
    iFramePageChanged sampleState (strL "other.html") (strL "#x") =
      ({ sampleState with page := strL "other.html", hash := strL "#x" },
       some (getUrl sampleState.project sampleState.version (strL "other.html") (strL "#x")
         sampleState.hideUi)) := by
  have h := c5_viewer_events_no_reload sampleState
    [ViewerEvent.pageChanged (strL "other.html") (strL "#x"),
     ViewerEvent.hashChanged (strL "#y")]
    (strL "other.html") (strL "#x") (strL "#y")
  exact ⟨h.1, h.2.2.2.1 (by decide)⟩

theorem c6_explicit_version_selection_witness :
    onVersionChanged sampleState (strL "1.2.0") =
      ({ sampleState with
          version := strL "1.2.0"
          iFrameSrc := getProjectDocsURL sampleState.project (strL "1.2.0") sampleState.page
            sampleState.hash },
       some (getUrl sampleState.project (strL "1.2.0") sampleState.page sampleState.hash
         sampleState.hideUi)) ∧
    onVersionChanged sampleState (strL "1.0.0") = (sampleState, none) := by
  have h1 := c6_explicit_version_selection sampleState (strL "1.2.0")
  have h2 := c6_explicit_version_selection sampleState (strL "1.0.0")
  exact ⟨h1.2 (by decide), h2.1 (by decide)⟩

theorem c7_unknown_version_witness :
    (resolveEffect (initDocsState ⟨strL "proj", strL "9.9.9", strL "index.html", [], false⟩)
      [⟨strL "2.0.0", []⟩]).1.loadingFailed = true ∧
    render ((resolveEffect (initDocsState ⟨strL "proj", strL "9.9.9", strL "index.html", [], false⟩)
      [⟨strL "2.0.0", []⟩]).1) = View.notFound := by
  have h := c7_unknown_version
    (initDocsState ⟨strL "proj", strL "9.9.9", strL "index.html", [], false⟩)
    [⟨strL "2.0.0", []⟩] (by decide) (by decide) (by decide) (by decide)
  exact h.2 (by decide)

theorem c8_empty_version_set_witness :
    (resolveEffect sampleState []).1.loadingFailed = true ∧
    render ((resolveEffect sampleState []).1) = View.notFound :=
  c8_empty_version_set sampleState (by decide)

theorem c9_outdated_banner_witness :
    bannerEffect { sampleState with versions := sortVersions sampleVersions } =
      BannerAction.raise
        ⟨strL "You are viewing an outdated version of the documentation.",
         strL "warning", none⟩ ∧
    bannerEffect { sampleState with
        versions := sortVersions sampleVersions
        version := strL "1.2.0" } = BannerAction.clear := by
  have h1 := c9_outdated_banner { sampleState with versions := sortVersions sampleVersions }
  have h2 := c9_outdated_banner { sampleState with
    versions := sortVersions sampleVersions
    version := strL "1.2.0" }
  exact ⟨h1.2.2 (by decide) (by decide), h2.2.1 (by decide) (by decide)⟩

theorem c10_no_membership_recheck_witness :
    (onVersionChanged sampleState (strL "9.9.9")).1.version = strL "9.9.9" ∧
    (onVersionChanged sampleState (strL "9.9.9")).1.loadingFailed = sampleState.loadingFailed ∧
    (locationEffect sampleState
      (encodeTuple ⟨strL "proj", strL "2.5.0", strL "index.html", [], false⟩)).1.version =
      (decodeAddress (encodeTuple ⟨strL "proj", strL "2.5.0", strL "index.html", [], false⟩)).version := by
  have h := c10_no_membership_recheck sampleState (strL "9.9.9")
    (encodeTuple ⟨strL "proj", strL "2.5.0", strL "index.html", [], false⟩)
  exact ⟨(h.1 (by decide)).1, (h.1 (by decide)).2.1, h.2.2⟩

theorem breakAtChar_cons_self (c : Char) (xs : Str) :
    breakAtChar c (c :: xs) = ([], c :: xs) := by
  simp [breakAtChar]

theorem splitOnChar_cons_self (c : Char) (xs : Str) :
    splitOnChar c (c :: xs) = [] :: splitOnChar c xs := by
  simp [splitOnChar]

/-- Parsing the encoded fragment: path part, search part, location hash. -/
theorem parsePath_encode (A H F : Str)
    (hA : ∀ c ∈ A, ¬ c = '#' ∧ ¬ c = '?')
    (hH : H = [] ∨ H.head? = some '#') (hHq : ∀ c ∈ H, ¬ c = '?')
    (hF : F = [] ∨ F = '?' :: strL "hide-ui=true") :
    parsePath (A ++ (H ++ F)) =
      ⟨A, if H = [] then F else [], if H = [] then [] else H ++ F⟩ := by
  have hAhash : '#' ∉ A := fun hm => (hA _ hm).1 rfl
  have hAq : '?' ∉ A := fun hm => (hA _ hm).2 rfl
  rcases hH with hHnil | hHhead
  · subst hHnil
    simp only [List.nil_append, if_pos rfl]
    rcases hF with hFnil | hFm
    · subst hFnil
      simp only [List.append_nil, parsePath]
      rw [breakAtChar_not_mem '#' A hAhash, breakAtChar_not_mem '?' A hAq]
      simp
    · subst hFm
      simp only [parsePath]
      have hnh : '#' ∉ A ++ '?' :: strL "hide-ui=true" := by
        intro hm
        rcases List.mem_append.mp hm with hm | hm
        · exact hAhash hm
        · revert hm
          decide
      rw [breakAtChar_not_mem '#' _ hnh, breakAtChar_append '?' A _ hAq]
      simp
  · have hHcons : ∃ H1, H = '#' :: H1 := by
      cases H with
      | nil => exact absurd hHhead (by simp)
      | cons c H1 =>
        simp only [List.head?_cons, Option.some_inj] at hHhead
        exact ⟨H1, by rw [hHhead]⟩
    obtain ⟨H1, rfl⟩ := hHcons
    simp only [List.cons_append, if_neg (List.cons_ne_nil '#' H1), parsePath]
    rw [breakAtChar_append '#' A _ hAhash, breakAtChar_not_mem '?' A hAq]

/-- Route matching on the encoded path. -/
theorem matchRoute_segments (P V E : Str)
    (hPne : ¬ P = []) (hP : ∀ c ∈ P, ¬ c = '/')
    (hVne : ¬ V = []) (hV : ∀ c ∈ V, ¬ c = '/')
    (hEne : ¬ E = []) (hE : ∀ c ∈ E, ¬ c = '/') :
    matchRoute ('/' :: (P ++ '/' :: (V ++ '/' :: E))) =
      some (decodeURIComponentSafe P, decodeURIComponentSafe V, decodeURIComponentSafe E) := by
  have hsplit : splitOnChar '/' ('/' :: (P ++ '/' :: (V ++ '/' :: E))) = [[], P, V, E] := by
    rw [splitOnChar_cons_self, splitOnChar_append '/' P _ (fun hm => hP _ hm rfl),
      splitOnChar_append '/' V _ (fun hm => hV _ hm rfl),
      splitOnChar_not_mem '/' E (fun hm => hE _ hm rfl)]
  unfold matchRoute
  rw [hsplit]
  simp only []
  rw [if_pos ⟨trivial, hPne, hVne, hEne⟩]

/-- Does `pat` occur as a contiguous subsequence of the string? -/
def hasSeq (pat : Str) : Str → Bool
  | [] => decide (pat = [])
  | c :: rest => decide (pat = (c :: rest).take pat.length) || hasSeq pat rest

/-- A navigation tuple the address grammar (§6) can carry: non-empty project
and version free of the address separators and of percent signs, a non-empty
page, and a hash that is empty or starts with its `#` delimiter and contains
no secondary separator. -/
def validTuple (t : NavTuple) : Prop :=
  ¬ t.project = [] ∧ (∀ c ∈ t.project, ¬ c = '/' ∧ ¬ c = '#' ∧ ¬ c = '?' ∧ ¬ c = '%') ∧
  ¬ t.version = [] ∧ (∀ c ∈ t.version, ¬ c = '/' ∧ ¬ c = '#' ∧ ¬ c = '?' ∧ ¬ c = '%') ∧
  ¬ t.page = [] ∧
  (t.hash = [] ∨ t.hash.head? = some '#') ∧
  (∀ c ∈ t.hash, ¬ c = '?')

instance (t : NavTuple) : Decidable (validTuple t) := by
  unfold validTuple
  infer_instance

/-- C2 -/
theorem c2_address_roundtrip (t : NavTuple) (hv : validTuple t)
    (hm : hasSeq (strL "?hide-ui=true") t.page = false) :
    decodeAddress (encodeTuple t) = t := by
  obtain ⟨hPne, hPsafe, hVne, hVsafe, hpgne, hHsh, hHq⟩ := hv
  have hEne := encodeURIComponent_ne_nil t.page hpgne
  set A := '/' :: (t.project ++ '/' :: (t.version ++ '/' :: encodeURIComponent t.page))
    with hAdef
  have hAsafe : ∀ c ∈ A, ¬ c = '#' ∧ ¬ c = '?' := by
    intro c hc
    rw [hAdef] at hc
    simp only [List.mem_cons, List.mem_append] at hc
    rcases hc with rfl | hc
    · exact ⟨by decide, by decide⟩
    rcases hc with hc | hc
    · exact ⟨(hPsafe c hc).2.1, (hPsafe c hc).2.2.1⟩
    rcases hc with rfl | hc
    · exact ⟨by decide, by decide⟩
    rcases hc with hc | hc
    · exact ⟨(hVsafe c hc).2.1, (hVsafe c hc).2.2.1⟩
    rcases hc with rfl | hc
    · exact ⟨by decide, by decide⟩
    · exact ⟨(encodeURIComponent_safe t.page c hc).2.1,
        (encodeURIComponent_safe t.page c hc).2.2⟩
  set F := (if t.hideUi then strL "?hide-ui=true" else []) with hFdef
  have hFcases : F = [] ∨ F = '?' :: strL "hide-ui=true" := by
    rw [hFdef]
    by_cases h : t.hideUi
    · right
      rw [if_pos h]
      decide
    · left
      rw [if_neg h]
  have hurl : encodeTuple t = '#' :: (A ++ (t.hash ++ F)) := by
    rw [hAdef, hFdef]
    simp [encodeTuple, getUrl, List.append_assoc]
  have hmr : matchRoute A =
      some (decodeURIComponentSafe t.project, decodeURIComponentSafe t.version,
        decodeURIComponentSafe (encodeURIComponent t.page)) := by
    rw [hAdef]
    exact matchRoute_segments t.project t.version (encodeURIComponent t.page)
      hPne (fun c hc => (hPsafe c hc).1) hVne (fun c hc => (hVsafe c hc).1)
      hEne (fun c hc => (encodeURIComponent_safe t.page c hc).1)
  have hdP : decodeURIComponentSafe t.project = t.project :=
    decodeURIComponentSafe_no_pct t.project (fun c hc => (hPsafe c hc).2.2.2)
  have hdV : decodeURIComponentSafe t.version = t.version :=
    decodeURIComponentSafe_no_pct t.version (fun c hc => (hVsafe c hc).2.2.2)
  have hdE : decodeURIComponentSafe (encodeURIComponent t.page) = t.page :=
    decodeURIComponentSafe_encode t.page
  unfold decodeAddress
  rw [hurl, breakAtChar_cons_self]
  simp only [List.drop_succ_cons, List.drop_zero]
  rw [parsePath_encode A t.hash F hAsafe hHsh hHq hFcases]
  simp only []
  rw [hmr, hdP, hdV, hdE]
  simp only []
  rcases hHsh with hHnil | hHhead
  · rcases hFcases with hFnil | hFm
    · have hui : t.hideUi = false := by
        by_cases h : t.hideUi
        · rw [hFdef, if_pos h] at hFnil
          exact absurd hFnil (by decide)
        · exact eq_false_of_ne_true h
      rw [hHnil, hFnil]
      refine NavTuple.ext rfl rfl rfl ?_ ?_
      · rw [hHnil]
        rfl
      · rw [hui]
        rfl
    · have hui : t.hideUi = true := by
        by_cases h : t.hideUi
        · exact h
        · rw [hFdef, if_neg h] at hFm
          exact absurd hFm.symm (by decide)
      rw [hHnil, hFm]
      refine NavTuple.ext rfl rfl rfl ?_ ?_
      · rw [hHnil]
        rfl
      · rw [hui]
        rfl
  · have hHcons : ∃ H1, t.hash = '#' :: H1 := by
      cases hht : t.hash with
      | nil =>
        rw [hht] at hHhead
        exact absurd hHhead (by simp)
      | cons c H1 =>
        rw [hht] at hHhead
        simp only [List.head?_cons, Option.some_inj] at hHhead
        exact ⟨H1, by rw [hHhead]⟩
    obtain ⟨H1, hH1⟩ := hHcons
    have hHne : ¬ t.hash = [] := by
      rw [hH1]
      exact List.cons_ne_nil '#' H1
    rw [if_neg hHne, if_neg hHne]
    rcases hFcases with hFnil | hFm
    · have hui : t.hideUi = false := by
        by_cases h : t.hideUi
        · rw [hFdef, if_pos h] at hFnil
          exact absurd hFnil (by decide)
        · exact eq_false_of_ne_true h
      rw [hFnil, List.append_nil]
      rw [splitOnChar_not_mem '?' t.hash (fun hm2 => hHq _ hm2 rfl)]
      refine NavTuple.ext rfl rfl rfl rfl ?_
      rw [hui]
      rfl
    · have hui : t.hideUi = true := by
        by_cases h : t.hideUi
        · exact h
        · rw [hFdef, if_neg h] at hFm
          exact absurd hFm.symm (by decide)
      rw [hFm]
      rw [splitOnChar_append '?' t.hash _ (fun hm2 => hHq _ hm2 rfl)]
      rw [splitOnChar_not_mem '?' (strL "hide-ui=true") (by decide)]
      refine NavTuple.ext rfl rfl rfl rfl ?_
      rw [hui]
      rfl

theorem c2_address_roundtrip_witness :
    validTuple ⟨strL "proj", strL "1.0.0", strL "path/to page.html", strL "#sec", true⟩ ∧
    decodeAddress (encodeTuple
        ⟨strL "proj", strL "1.0.0", strL "path/to page.html", strL "#sec", true⟩) =
      ⟨strL "proj", strL "1.0.0", strL "path/to page.html", strL "#sec", true⟩ :=
  ⟨by decide, c2_address_roundtrip
    ⟨strL "proj", strL "1.0.0", strL "path/to page.html", strL "#sec", true⟩
    (by decide) (by decide)⟩
